import Mathlib

/-!
Verification of the OpenFoodFacts export pipeline (`Scripts/off_export.py`).

The script queries a search API once per configured query term, normalizes
each returned product record (numeric sanitization, brand extraction,
category classification), deduplicates by barcode across the whole run, and
writes the accumulated rows as a CSV table with a fixed header.

This file gives a shallow embedding of that pipeline:
* JSON-ish field values become the inductive type `JVal`; Python floats are
  modelled as rationals plus explicit NaN/infinity markers (`PyF`), so
  "finite" is visible in the type.  Float overflow of huge decimal literals
  is not modelled (rationals are unbounded); no claim depends on it.
* String primitives the script relies on (`strip`, `lower`, `split(",")`,
  substring `in`) are implemented here by structural recursion on the
  character list so that concrete runs reduce inside the kernel.
* `to_float`, `first_brand`, `CATEGORY_MAP`, `map_category` mirror the
  functions of the same names in the script.
* The body of `main`'s per-product loop becomes `processProduct`; the
  per-query loop with its try/except becomes `runQuery`/`runAll`, taking the
  fetch outcomes (one `FetchResult` per query term) as explicit input since
  the network is external.
* The CSV write becomes `write_csv`, taking the previous file content as an
  explicit argument it ignores (Python's open mode "w" truncates).
-/

namespace OffExport

/-- ASCII whitespace stripped by Python's `str.strip()`. -/
def pyIsSpace (c : Char) : Bool :=
  c = ' ' ∨ c = '\t' ∨ c = '\n' ∨ c = '\r' ∨ c = '\x0b' ∨ c = '\x0c'

/-- Python's `str.strip()`: drop whitespace from both ends. -/
def pyStrip (s : String) : String :=
  String.mk (((s.toList.dropWhile pyIsSpace).reverse.dropWhile pyIsSpace).reverse)

/-- Python's `str.lower()` (ASCII range, which covers the script's tags and
keywords). -/
def pyLower (s : String) : String :=
  String.mk (s.toList.map Char.toLower)

/-- Python's `str.split(",")` on the character list: splitting on a comma,
keeping empty parts (`"".split(",") == [""]`). -/
def splitCommaChars : List Char → List (List Char)
  | [] => [[]]
  | ',' :: t => [] :: splitCommaChars t
  | c :: t =>
      match splitCommaChars t with
      | [] => [[c]]
      | h :: r => (c :: h) :: r

/-- Python's `str.split(",")`. -/
def pySplitComma (s : String) : List String :=
  (splitCommaChars s.toList).map String.mk

/-- Boolean substring test on char lists: does the first list occur
contiguously in the second?  Mirrors Python's `n in h` for strings. -/
def subAt : List Char → List Char → Bool
  | n, [] => n.isEmpty
  | n, c :: t => n.isPrefixOf (c :: t) || subAt n t

/-- Python's `key in tag` substring containment on strings. -/
def strContains (needle hay : String) : Bool :=
  subAt needle.toList hay.toList

/-- A JSON-ish value as the script may receive it in a product field:
absent/null, a finite number, IEEE NaN, IEEE infinity, or a string. -/
inductive JVal where
  | none_ : JVal
  | num : ℚ → JVal
  | nan : JVal
  | inf : JVal
  | str : String → JVal
deriving Repr, DecidableEq

/-- A Python float: either a finite value (modelled as a rational) or one of
the non-finite specials. -/
inductive PyF where
  | fin : ℚ → PyF
  | nan : PyF
  | inf : PyF
deriving Repr, DecidableEq

/-- Digit list to natural number, most significant first. -/
def digitsToNat (ds : List Char) : Nat :=
  ds.foldl (fun a c => a * 10 + (c.toNat - 48)) 0

/-- Parse an unsigned decimal mantissa: `digits`, `digits.digits`,
`digits.`, or `.digits`; returns the value and the unconsumed rest. -/
def parseMantissa (cs : List Char) : Option (ℚ × List Char) :=
  let ip := cs.takeWhile Char.isDigit
  let r1 := cs.dropWhile Char.isDigit
  match r1 with
  | '.' :: r2 =>
      let fp := r2.takeWhile Char.isDigit
      let r3 := r2.dropWhile Char.isDigit
      if ip.isEmpty && fp.isEmpty then Option.none
      else some ((digitsToNat ip : ℚ) + (digitsToNat fp : ℚ) / ((10 : ℚ) ^ fp.length), r3)
  | _ => if ip.isEmpty then Option.none else some ((digitsToNat ip : ℚ), r1)

/-- Parse an optional exponent part `e[+-]digits` / `E[+-]digits`. -/
def parseExpPart (cs : List Char) : Option (Int × List Char) :=
  match cs with
  | 'e' :: rest | 'E' :: rest =>
      let (sgn, rest2) : Bool × List Char :=
        match rest with
        | '+' :: r => (false, r)
        | '-' :: r => (true, r)
        | r => (false, r)
      let ds := rest2.takeWhile Char.isDigit
      let r3 := rest2.dropWhile Char.isDigit
      if ds.isEmpty then Option.none
      else some ((if sgn then -(digitsToNat ds : Int) else (digitsToNat ds : Int)), r3)
  | _ => some (0, cs)

/-- Python's `float(str)` conversion: optional surrounding whitespace and
sign, then `inf`/`infinity`/`nan` (case-insensitive) or a decimal literal
with optional exponent.  `Option.none` models a raised `ValueError`. -/
def parsePyFloat (s : String) : Option PyF :=
  let cs0 := (pyStrip s).toList
  let (neg, cs) : Bool × List Char :=
    match cs0 with
    | '+' :: r => (false, r)
    | '-' :: r => (true, r)
    | r => (false, r)
  let low := cs.map Char.toLower
  if low = "inf".toList ∨ low = "infinity".toList then some PyF.inf
  else if low = "nan".toList then some PyF.nan
  else
    match parseMantissa cs with
    | Option.none => Option.none
    | some (q, rest) =>
        match parseExpPart rest with
        | Option.none => Option.none
        | some (e, rest2) =>
            if rest2.isEmpty then
              some (PyF.fin ((if neg then -q else q) * (10 : ℚ) ^ e))
            else Option.none

/-- Python's `float(value)` coercion on a `JVal`; `Option.none` models a
raised exception (`TypeError` on `None`, `ValueError` on a bad string). -/
def pyCoerce : JVal → Option PyF
  | JVal.none_ => Option.none
  | JVal.num q => some (PyF.fin q)
  | JVal.nan => some PyF.nan
  | JVal.inf => some PyF.inf
  | JVal.str s => parsePyFloat s

/-- `to_float` from the script: try `float(value)`; return `0.0` when the
coercion raises or the result is NaN or infinite. -/
def to_float (value : JVal) : ℚ :=
  match pyCoerce value with
  | some (PyF.fin f) => f
  | some PyF.nan => 0
  | some PyF.inf => 0
  | Option.none => 0

/-- `first_brand` from the script: OFF uses comma-separated brands; return
the first comma-separated part that is non-empty after stripping, else "". -/
def first_brand (brands_field : String) : String :=
  if brands_field = "" then ""
  else
    let parts := ((pySplitComma brands_field).map pyStrip).filter (fun p => p ≠ "")
    match parts with
    | [] => ""
    | p :: _ => p

/-- `CATEGORY_MAP` from the script, as the ordered (keyword, category) pairs
of the Python dict in insertion order (Python dicts iterate in insertion
order). -/
def CATEGORY_MAP : List (String × String) :=
  [("meat", "meat"),
   ("beef", "meat"),
   ("poultry", "meat"),
   ("chicken", "meat"),
   ("turkey", "meat"),
   ("lamb", "meat"),
   ("pork", "meat"),
   ("dairy", "dairy"),
   ("milk", "dairy"),
   ("cheese", "dairy"),
   ("yogurt", "dairy"),
   ("grain", "grains"),
   ("cereal", "grains"),
   ("rice", "grains"),
   ("pasta", "grains"),
   ("bread", "bakery"),
   ("bakery", "bakery"),
   ("vegetable", "vegetables"),
   ("legume", "vegetables"),
   ("salad", "vegetables"),
   ("fruit", "fruits"),
   ("nut", "nuts"),
   ("beverage", "beverages"),
   ("drink", "beverages"),
   ("juice", "beverages"),
   ("snack", "snacks"),
   ("confectionery", "snacks"),
   ("chocolate", "snacks"),
   ("sweet", "desserts"),
   ("dessert", "desserts"),
   ("sauce", "condiments"),
   ("condiment", "condiments"),
   ("seafood", "seafood"),
   ("fish", "seafood"),
   ("fast-food", "fastfood"),
   ("turkish-cuisine", "turkish")]

/-- One inner step of `map_category`: scan the keyword table in its defined
order and return the category of the first keyword contained in `tag`. -/
def scanTag (tag : String) : Option String :=
  CATEGORY_MAP.findSome? (fun kv => if strContains kv.1 tag then some kv.2 else Option.none)

/-- `map_category` from the script: lower-case the tags, scan them in order,
and for each tag scan the keyword table in order; the first keyword that is
a substring of the tag decides the category; otherwise "other". -/
def map_category (categories_tags : List String) : String :=
  if categories_tags.isEmpty then "other"
  else
    let tags := categories_tags.map pyLower
    match tags.findSome? scanTag with
    | some v => v
    | Option.none => "other"

/-- The `nutriments` sub-record, holding the four per-100g keys the script
reads; `JVal.none_` models an absent key (`dict.get` returning `None`). -/
structure Nutriments where
  energy_kcal_100g : JVal
  proteins_100g : JVal
  carbohydrates_100g : JVal
  fat_100g : JVal
deriving Repr, DecidableEq

/-- The empty `nutriments` dict (`p.get("nutriments") or {}` fallback). -/
def emptyNutr : Nutriments :=
  ⟨JVal.none_, JVal.none_, JVal.none_, JVal.none_⟩

/-- One raw product object from the response's `products` array; every field
may be absent (`Option.none` models an absent key or JSON `null`). -/
structure RawProduct where
  code : Option String
  product_name : Option String
  brands : Option String
  nutriments : Option Nutriments
  categories_tags : Option (List String)
deriving Repr, DecidableEq

/-- One accepted output row.  The loop in `main` builds it as a list of
eight strings, formatting the four macro floats with f-strings; here the
macros stay rationals and the decimal rendering happens in `rowToFields`,
which is observationally the same table. -/
structure CanonRow where
  nameEN : String
  nameTR : String
  brand : String
  calories : ℚ
  protein : ℚ
  carbs : ℚ
  fat : ℚ
  category : String
deriving Repr, DecidableEq

/-- The Record Normalizer: the per-product body of `main`'s loop without the
driver's `code in seen` dedup test.  `Option.none` is the rejection signal;
`some (row, code)` is acceptance together with the dedup key. -/
def normalize (p : RawProduct) : Option (CanonRow × String) :=
  let code := pyStrip (p.code.getD "")
  if code = "" then Option.none
  else
    let nutr := p.nutriments.getD emptyNutr
    let kcal := to_float nutr.energy_kcal_100g
    let prot := to_float nutr.proteins_100g
    let carb := to_float nutr.carbohydrates_100g
    let fat := to_float nutr.fat_100g
    if kcal ≤ 0 ∧ (prot ≤ 0 ∧ carb ≤ 0 ∧ fat ≤ 0) then Option.none
    else
      let name := pyStrip (p.product_name.getD "")
      if name = "" then Option.none
      else
        let brand := first_brand (pyStrip (p.brands.getD ""))
        let category := map_category (p.categories_tags.getD [])
        some (⟨name, name, brand, kcal, prot, carb, fat, category⟩, code)

/-- The per-product body of `main`'s inner loop, exactly as written there:
skip on empty or already-seen barcode, then the three gates, then append
the row and add the barcode. -/
def processProduct (seen : List String) (rows : List CanonRow) (p : RawProduct) :
    List String × List CanonRow :=
  let code := pyStrip (p.code.getD "")
  if code = "" ∨ seen.contains code then (seen, rows)
  else
    let nutr := p.nutriments.getD emptyNutr
    let kcal := to_float nutr.energy_kcal_100g
    let prot := to_float nutr.proteins_100g
    let carb := to_float nutr.carbohydrates_100g
    let fat := to_float nutr.fat_100g
    if kcal ≤ 0 ∧ (prot ≤ 0 ∧ carb ≤ 0 ∧ fat ≤ 0) then (seen, rows)
    else
      let name := pyStrip (p.product_name.getD "")
      if name = "" then (seen, rows)
      else
        let brand := first_brand (pyStrip (p.brands.getD ""))
        let category := map_category (p.categories_tags.getD [])
        (seen ++ [code], rows ++ [⟨name, name, brand, kcal, prot, carb, fat, category⟩])

/-- `main`'s inner loop over one response's `products` array. -/
def processProducts (seen : List String) (rows : List CanonRow) :
    List RawProduct → List String × List CanonRow
  | [] => (seen, rows)
  | p :: ps =>
      let st := processProduct seen rows p
      processProducts st.1 st.2 ps

/-- Outcome of one `fetch_off_search` call: the parsed `products` array, or
the exception `main`'s `try` block catches (non-2xx status, network failure,
or JSON decode failure). -/
inductive FetchResult where
  | ok : List RawProduct → FetchResult
  | err : String → FetchResult
deriving Repr, DecidableEq

/-- Whether a fetch outcome is a failure. -/
def isErr : FetchResult → Bool
  | FetchResult.ok _ => false
  | FetchResult.err _ => true

/-- Driver state: the `seen` set (as a duplicate-free list: elements are
inserted only when absent, so its length is the set's size), the accumulated
`rows`, and the count of `WARN` lines printed. -/
structure RunState where
  seen : List String
  rows : List CanonRow
  warns : Nat
deriving Repr, DecidableEq

/-- One iteration of `main`'s outer loop: a failed fetch prints a warning
and `continue`s; a successful one feeds its products through the inner
loop. -/
def runQuery (st : RunState) (res : FetchResult) : RunState :=
  match res with
  | FetchResult.err _ => ⟨st.seen, st.rows, st.warns + 1⟩
  | FetchResult.ok ps =>
      let pr := processProducts st.seen st.rows ps
      ⟨pr.1, pr.2, st.warns⟩

/-- `main`'s outer loop over the query terms, given the fetch outcome of
each term in order (the network is external input to the model). -/
def runAll (st : RunState) : List FetchResult → RunState
  | [] => st
  | r :: rest => runAll (runQuery st r) rest

/-- The state `main` starts from: empty seen set, no rows, no warnings. -/
def initState : RunState := ⟨[], [], 0⟩

/-- `DEFAULT_QUERIES_TR` from the script. -/
def DEFAULT_QUERIES_TR : List String :=
  ["tavuk göğsü", "hindi göğsü", "yumurta", "yoğurt", "süt", "peynir", "lor peyniri", "kefir",
   "nohut", "mercimek", "kuru fasulye", "barbunya",
   "pirinç", "bulgur", "yulaf", "tam buğday ekmeği", "makarna",
   "zeytinyağı", "avokado",
   "badem", "fındık", "ceviz",
   "muz", "elma", "portakal", "çilek", "ıspanak", "brokoli", "domates", "salatalık",
   "ton balığı", "somon"]

/-- A whole run of `main` before the CSV write, with the fetch behaviour
supplied as a function from query term to outcome. -/
def runMain (fetch : String → FetchResult) : RunState :=
  runAll initState (DEFAULT_QUERIES_TR.map fetch)

/-- The fixed CSV header `main` writes. -/
def HEADER_ROW : List String :=
  ["nameEN", "nameTR", "brand", "calories", "protein", "carbs", "fat", "category"]

/-- Decimal rendering of a macro value (the script's `f"{x}"`); the exact
numeral text of Python's float repr is not modelled and no claim depends on
it. -/
def formatQ (q : ℚ) : String := toString q

/-- One CSV record per accepted row, in the eight-column order. -/
def rowToFields (r : CanonRow) : List String :=
  [r.nameEN, r.nameTR, r.brand, formatQ r.calories, formatQ r.protein,
   formatQ r.carbs, formatQ r.fat, r.category]

/-- The CSV write at the end of `main`: open mode "w" truncates, so the
previous content of the destination is an explicit argument the function
ignores; the result is the header row followed by one record per
accumulated row, in order. -/
def write_csv (prev : List (List String)) (rows : List CanonRow) : List (List String) :=
  HEADER_ROW :: rows.map rowToFields

/-!
Instrumented driver: identical to `processProduct`/`runAll` except that each
accumulated row is paired with the barcode that produced it, so uniqueness
of barcodes in the output is statable.  `projPairs` theorems tie it to the
plain driver.
-/

/-- `processProduct`, also recording each appended row's barcode. -/
def processProductP (seen : List String) (prs : List (String × CanonRow)) (p : RawProduct) :
    List String × List (String × CanonRow) :=
  let code := pyStrip (p.code.getD "")
  if code = "" ∨ seen.contains code then (seen, prs)
  else
    let nutr := p.nutriments.getD emptyNutr
    let kcal := to_float nutr.energy_kcal_100g
    let prot := to_float nutr.proteins_100g
    let carb := to_float nutr.carbohydrates_100g
    let fat := to_float nutr.fat_100g
    if kcal ≤ 0 ∧ (prot ≤ 0 ∧ carb ≤ 0 ∧ fat ≤ 0) then (seen, prs)
    else
      let name := pyStrip (p.product_name.getD "")
      if name = "" then (seen, prs)
      else
        let brand := first_brand (pyStrip (p.brands.getD ""))
        let category := map_category (p.categories_tags.getD [])
        (seen ++ [code], prs ++ [(code, ⟨name, name, brand, kcal, prot, carb, fat, category⟩)])

/-- Instrumented inner loop. -/
def processProductsP (seen : List String) (prs : List (String × CanonRow)) :
    List RawProduct → List String × List (String × CanonRow)
  | [] => (seen, prs)
  | p :: ps =>
      let st := processProductP seen prs p
      processProductsP st.1 st.2 ps

/-- Instrumented driver state. -/
structure RunStateP where
  seen : List String
  pairs : List (String × CanonRow)
  warns : Nat
deriving Repr, DecidableEq

/-- Instrumented outer-loop iteration. -/
def runQueryP (st : RunStateP) (res : FetchResult) : RunStateP :=
  match res with
  | FetchResult.err _ => ⟨st.seen, st.pairs, st.warns + 1⟩
  | FetchResult.ok ps =>
      let pr := processProductsP st.seen st.pairs ps
      ⟨pr.1, pr.2, st.warns⟩

/-- Instrumented outer loop. -/
def runAllP (st : RunStateP) : List FetchResult → RunStateP
  | [] => st
  | r :: rest => runAllP (runQueryP st r) rest

/-- Instrumented initial state. -/
def initStateP : RunStateP := ⟨[], [], 0⟩

/-- The fixed closed category set the spec names (the classifier's possible
outputs). -/
def CATEGORY_SET : List String :=
  ["meat", "dairy", "grains", "bakery", "vegetables", "fruits", "nuts", "beverages",
   "snacks", "desserts", "condiments", "seafood", "fastfood", "turkish", "other"]

/-- 0.1 as a rational, given by its reduced fraction so that concrete runs
reduce inside the kernel. -/
def qTenth : ℚ := Rat.mk' 1 10 (by decide) (Nat.coprime_one_left 10)

theorem qTenth_eq : qTenth = 1 / 10 := by
  have h : ((1 : ℤ) : ℚ) / ((10 : ℕ) : ℚ) = qTenth := Rat.num_div_den qTenth
  rw [← h]
  norm_num

/-- The driver's per-product step equals the Record Normalizer followed by
the dedup test.  (The source checks `code in seen` before the other gates,
but a record any gate rejects leaves the state unchanged either way, so the
two orders agree.) -/
theorem processProduct_eq (s : List String) (r : List CanonRow) (p : RawProduct) :
    processProduct s r p =
      (normalize p).elim (s, r)
        (fun rc => if s.contains rc.2 then (s, r) else (s ++ [rc.2], r ++ [rc.1])) := by
  simp only [processProduct, normalize]
  split_ifs <;> simp_all

/-- Instrumented analogue of `processProduct_eq`. -/
theorem processProductP_eq (s : List String) (prs : List (String × CanonRow)) (p : RawProduct) :
    processProductP s prs p =
      (normalize p).elim (s, prs)
        (fun rc => if s.contains rc.2 then (s, prs) else (s ++ [rc.2], prs ++ [(rc.2, rc.1)])) := by
  simp only [processProductP, normalize]
  split_ifs <;> simp_all

/-- What acceptance guarantees about the produced row and key. -/
theorem normalize_accept (p : RawProduct) (rc : CanonRow × String)
    (h : normalize p = some rc) :
    rc.1.nameEN = rc.1.nameTR ∧ rc.1.nameTR ≠ "" ∧ rc.2 ≠ "" := by
  simp only [normalize] at h
  split_ifs at h with h1 h2 h3
  all_goals cases h
  exact ⟨rfl, h3, h1⟩

/-- Acceptance also pins the row's category to the classifier's output. -/
theorem normalize_accept_category (p : RawProduct) (rc : CanonRow × String)
    (h : normalize p = some rc) :
    rc.1.category = map_category (p.categories_tags.getD []) := by
  simp only [normalize] at h
  split_ifs at h
  all_goals cases h
  rfl

/-- A predicate preserved by every per-product step is preserved by the
inner loop. -/
theorem processProducts_ind (P : List String → List CanonRow → Prop)
    (hstep : ∀ s r p, P s r → P (processProduct s r p).1 (processProduct s r p).2) :
    ∀ ps s r, P s r → P (processProducts s r ps).1 (processProducts s r ps).2 := by
  intro ps
  induction ps with
  | nil => intro s r h; exact h
  | cons p ps ih =>
      intro s r h
      simp only [processProducts]
      exact ih _ _ (hstep s r p h)

/-- A predicate preserved by every query step is preserved by the outer
loop. -/
theorem runAll_ind (P : RunState → Prop)
    (hstep : ∀ st res, P st → P (runQuery st res)) :
    ∀ results st, P st → P (runAll st results) := by
  intro results
  induction results with
  | nil => intro st h; exact h
  | cons r rest ih =>
      intro st h
      simp only [runAll]
      exact ih _ (hstep st r h)

/-- Instrumented analogues of the loop-induction principles. -/
theorem processProductsP_ind (P : List String → List (String × CanonRow) → Prop)
    (hstep : ∀ s prs p, P s prs → P (processProductP s prs p).1 (processProductP s prs p).2) :
    ∀ ps s prs, P s prs → P (processProductsP s prs ps).1 (processProductsP s prs ps).2 := by
  intro ps
  induction ps with
  | nil => intro s prs h; exact h
  | cons p ps ih =>
      intro s prs h
      simp only [processProductsP]
      exact ih _ _ (hstep s prs p h)

theorem runAllP_ind (P : RunStateP → Prop)
    (hstep : ∀ st res, P st → P (runQueryP st res)) :
    ∀ results st, P st → P (runAllP st results) := by
  intro results
  induction results with
  | nil => intro st h; exact h
  | cons r rest ih =>
      intro st h
      simp only [runAllP]
      exact ih _ (hstep st r h)

/-- The instrumented per-product step projects onto the plain one. -/
theorem processProductP_proj (s : List String) (prs : List (String × CanonRow)) (p : RawProduct) :
    (processProductP s prs p).1 = (processProduct s (prs.map Prod.snd) p).1 ∧
    (processProductP s prs p).2.map Prod.snd = (processProduct s (prs.map Prod.snd) p).2 := by
  rw [processProductP_eq, processProduct_eq]
  cases h : normalize p with
  | none => simp
  | some rc =>
      by_cases hc : rc.2 ∈ s <;> simp [hc]

/-- The instrumented inner loop projects onto the plain one. -/
theorem processProductsP_proj :
    ∀ ps (s : List String) (prs : List (String × CanonRow)),
      (processProductsP s prs ps).1 = (processProducts s (prs.map Prod.snd) ps).1 ∧
      (processProductsP s prs ps).2.map Prod.snd = (processProducts s (prs.map Prod.snd) ps).2 := by
  intro ps
  induction ps with
  | nil => intro s prs; exact ⟨rfl, rfl⟩
  | cons p ps ih =>
      intro s prs
      simp only [processProductsP, processProducts]
      have h := processProductP_proj s prs p
      rw [← h.1, ← h.2] at *
      exact ih _ _

/-- The instrumented driver projects onto the plain one. -/
theorem runAllP_proj :
    ∀ results (s : List String) (prs : List (String × CanonRow)) (w : Nat),
      (runAllP ⟨s, prs, w⟩ results).seen = (runAll ⟨s, prs.map Prod.snd, w⟩ results).seen ∧
      (runAllP ⟨s, prs, w⟩ results).pairs.map Prod.snd = (runAll ⟨s, prs.map Prod.snd, w⟩ results).rows ∧
      (runAllP ⟨s, prs, w⟩ results).warns = (runAll ⟨s, prs.map Prod.snd, w⟩ results).warns := by
  intro results
  induction results with
  | nil => intro s prs w; exact ⟨rfl, rfl, rfl⟩
  | cons r rest ih =>
      intro s prs w
      simp only [runAllP, runAll]
      cases r with
      | err msg =>
          simp only [runQueryP, runQuery]
          exact ih s prs (w + 1)
      | ok ps =>
          simp only [runQueryP, runQuery]
          have h := processProductsP_proj ps s prs
          rw [← h.1, ← h.2]
          exact ih _ _ w

/-- Every category the keyword table can produce is in the closed set. -/
theorem category_map_values : ∀ kv ∈ CATEGORY_MAP, kv.2 ∈ CATEGORY_SET := by decide

/-- The instrumented inner loop only appends to the accumulated pairs. -/
theorem processProductsP_suffix :
    ∀ ps (s : List String) (prs : List (String × CanonRow)),
      ∃ suf, (processProductsP s prs ps).2 = prs ++ suf := by
  intro ps
  induction ps with
  | nil => intro s prs; exact ⟨[], by simp [processProductsP]⟩
  | cons p ps ih =>
      intro s prs
      simp only [processProductsP]
      rw [processProductP_eq]
      cases hn : normalize p with
      | none =>
          simpa using ih s prs
      | some rc =>
          by_cases hc : rc.2 ∈ s
          · simpa [hc] using ih s prs
          · obtain ⟨suf, hsuf⟩ := ih (s ++ [rc.2]) (prs ++ [(rc.2, rc.1)])
            refine ⟨(rc.2, rc.1) :: suf, ?_⟩
            simp [hc, hsuf]

/-- The instrumented driver only appends to the accumulated pairs. -/
theorem runAllP_suffix :
    ∀ (results : List FetchResult) (st : RunStateP),
      ∃ suf, (runAllP st results).pairs = st.pairs ++ suf := by
  intro results
  induction results with
  | nil => intro st; exact ⟨[], by simp [runAllP]⟩
  | cons r rest ih =>
      intro st
      simp only [runAllP]
      obtain ⟨suf1, h1⟩ := ih (runQueryP st r)
      cases r with
      | err msg => exact ⟨suf1, h1⟩
      | ok ps =>
          obtain ⟨suf0, h0⟩ := processProductsP_suffix ps st.seen st.pairs
          refine ⟨suf0 ++ suf1, ?_⟩
          rw [h1]
          simp only [runQueryP]
          rw [h0, List.append_assoc]

/-- The driver's warning count is the number of failed fetches. -/
theorem runAll_warns :
    ∀ (results : List FetchResult) (st : RunState),
      (runAll st results).warns = st.warns + results.countP isErr := by
  intro results
  induction results with
  | nil => intro st; simp [runAll]
  | cons r rest ih =>
      intro st
      simp only [runAll]
      rw [ih]
      cases r with
      | err m => simp [runQuery, isErr]; omega
      | ok ps => simp [runQuery, isErr]

/-- Scenario-A record: first query term's hit for barcode `X1`. -/
def recX1A : RawProduct :=
  ⟨some "X1", some "Food", some "BrandA",
   some ⟨JVal.num 100, JVal.none_, JVal.none_, JVal.none_⟩, Option.none⟩

/-- Scenario-A record: second query term's hit for the same barcode with a
different brand. -/
def recX1B : RawProduct :=
  ⟨some "X1", some "Food", some "BrandB",
   some ⟨JVal.num 100, JVal.none_, JVal.none_, JVal.none_⟩, Option.none⟩

/-- Boundary record: all four macro values present but zero. -/
def recAllZero : RawProduct :=
  ⟨some "B0", some "Food", Option.none,
   some ⟨JVal.num 0, JVal.num 0, JVal.num 0, JVal.num 0⟩, Option.none⟩

/-- Boundary record: energy zero but protein 0.1. -/
def recProteinTenth : RawProduct :=
  ⟨some "B1", some "Food", Option.none,
   some ⟨JVal.num 0, JVal.num qTenth, JVal.none_, JVal.none_⟩, Option.none⟩

/-- A record with a non-empty barcode and positive protein but no
`product_name` at all. -/
def recC3cx : RawProduct :=
  ⟨some "C3", Option.none, Option.none,
   some ⟨JVal.none_, JVal.num 1, JVal.none_, JVal.none_⟩, Option.none⟩

/-- Scenario-C record: all macro fields populated, `product_name` missing
entirely. -/
def recNoName : RawProduct :=
  ⟨some "C7", Option.none, some "Acme",
   some ⟨JVal.num 100, JVal.num 10, JVal.num 10, JVal.num 10⟩, some ["en:chicken-breast"]⟩

/-- A record whose display name is whitespace only. -/
def recBlankName : RawProduct :=
  ⟨some "C7b", some "   ", Option.none,
   some ⟨JVal.num 100, JVal.none_, JVal.none_, JVal.none_⟩, Option.none⟩

/-- A barcode-`D1` record every gate rejects (all macros zero). -/
def recRej : RawProduct :=
  ⟨some "D1", some "Food", Option.none,
   some ⟨JVal.num 0, JVal.num 0, JVal.num 0, JVal.num 0⟩, Option.none⟩

/-- A later barcode-`D1` record that passes all gates. -/
def recAcc : RawProduct :=
  ⟨some "D1", some "Better Food", some "Acme",
   some ⟨JVal.num 150, JVal.none_, JVal.none_, JVal.none_⟩, Option.none⟩

/-- The row `recAcc` normalizes to. -/
def rowD : CanonRow := ⟨"Better Food", "Better Food", "Acme", 150, 0, 0, 0, "other"⟩

/-- C2: the Category Classifier lower-cases each tag, scans tags in their
given order and the keyword table in its defined order, returns the first
matching keyword's category (stopping immediately) and "other" when nothing
matches or the tag set is empty; its result is always in the fixed closed
category set; `{"en:chicken-breast"}` classifies as "meat" and
`{"en:unknown-thing"}` as "other". -/
theorem C2_classifier_first_match :
    (∀ tags : List String, map_category tags ∈ CATEGORY_SET)
    ∧ map_category [] = "other"
    ∧ (∀ (t : String) (ts : List String),
        map_category (t :: ts) = (scanTag (pyLower t)).getD (map_category ts))
    ∧ (∀ tag : String, scanTag tag =
        CATEGORY_MAP.findSome? fun kv => if strContains kv.1 tag then some kv.2 else Option.none)
    ∧ map_category ["en:chicken-breast"] = "meat"
    ∧ map_category ["en:unknown-thing"] = "other" := by
  refine ⟨?_, rfl, ?_, fun tag => rfl, by decide, by decide⟩
  · intro tags
    unfold map_category
    by_cases he : tags.isEmpty
    · simp only [he, if_pos]
      decide
    · simp only [he, if_neg, Bool.false_eq_true, not_false_eq_true]
      cases hf : (tags.map pyLower).findSome? scanTag with
      | none => decide
      | some v =>
          obtain ⟨a, _, hfa⟩ := List.exists_of_findSome?_eq_some hf
          unfold scanTag at hfa
          obtain ⟨kv, hkv, hif⟩ := List.exists_of_findSome?_eq_some hfa
          by_cases hc : strContains kv.1 a
          · simp only [hc, if_pos, Option.some.injEq] at hif
            rw [← hif]
            exact category_map_values kv hkv
          · simp [hc] at hif
  · intro t ts
    unfold map_category
    simp only [List.isEmpty_cons, List.map_cons, List.findSome?_cons]
    cases h : scanTag (pyLower t) with
    | some v => simp
    | none =>
        cases ts with
        | nil => simp
        | cons t' ts' => simp

/-- C3 counterexample: a record with a non-empty identifier, positive
protein (so not all four macros ≤ 0) and a missing display name is still
rejected by the Record Normalizer, so "rejects if and only if all four
macros ≤ 0" fails as stated. -/
theorem C3_counterexample :
    pyStrip (recC3cx.code.getD "") ≠ ""
    ∧ normalize recC3cx = Option.none
    ∧ ¬(to_float (recC3cx.nutriments.getD emptyNutr).energy_kcal_100g ≤ 0
        ∧ to_float (recC3cx.nutriments.getD emptyNutr).proteins_100g ≤ 0
        ∧ to_float (recC3cx.nutriments.getD emptyNutr).carbohydrates_100g ≤ 0
        ∧ to_float (recC3cx.nutriments.getD emptyNutr).fat_100g ≤ 0) := by
  refine ⟨by decide, by decide, by decide⟩

/-- C3 (amended): for records with a non-empty trimmed identifier and a
non-empty trimmed display name, the Record Normalizer rejects exactly when
the four sanitized macros are all ≤ 0; the all-zero record is excluded and
the energy-0/protein-0.1 record passes. -/
theorem C3_allblank_gate_amended :
    (∀ p : RawProduct,
      pyStrip (p.code.getD "") ≠ "" →
      pyStrip (p.product_name.getD "") ≠ "" →
      (normalize p = Option.none ↔
        (to_float (p.nutriments.getD emptyNutr).energy_kcal_100g ≤ 0
          ∧ (to_float (p.nutriments.getD emptyNutr).proteins_100g ≤ 0
            ∧ to_float (p.nutriments.getD emptyNutr).carbohydrates_100g ≤ 0
            ∧ to_float (p.nutriments.getD emptyNutr).fat_100g ≤ 0))))
    ∧ normalize recAllZero = Option.none
    ∧ (normalize recProteinTenth).isSome = true
    ∧ qTenth = 1 / 10 := by
  refine ⟨?_, by decide, by decide, qTenth_eq⟩
  intro p hcode hname
  by_cases hg : (to_float (p.nutriments.getD emptyNutr).energy_kcal_100g ≤ 0
      ∧ (to_float (p.nutriments.getD emptyNutr).proteins_100g ≤ 0
        ∧ to_float (p.nutriments.getD emptyNutr).carbohydrates_100g ≤ 0
        ∧ to_float (p.nutriments.getD emptyNutr).fat_100g ≤ 0)) <;>
    simp [normalize, hcode, hname, hg]

/-- Witness for `C3_allblank_gate_amended` at the all-zero boundary record. -/
theorem C3_allblank_gate_amended_witness :
    normalize recAllZero = Option.none ↔
      (to_float (recAllZero.nutriments.getD emptyNutr).energy_kcal_100g ≤ 0
        ∧ (to_float (recAllZero.nutriments.getD emptyNutr).proteins_100g ≤ 0
          ∧ to_float (recAllZero.nutriments.getD emptyNutr).carbohydrates_100g ≤ 0
          ∧ to_float (recAllZero.nutriments.getD emptyNutr).fat_100g ≤ 0)) :=
  C3_allblank_gate_amended.1 recAllZero (by decide) (by decide)

/-- C4: the Numeric Sanitizer is total and its output is a finite value by
construction: it is either 0 or the successfully coerced finite number;
NaN, infinity, `None`, and non-numeric strings all sanitize to 0, and a
finite number passes through unchanged. -/
theorem C4_to_float_total_finite :
    (∀ v : JVal, to_float v = 0
      ∨ ∃ q : ℚ, pyCoerce v = some (PyF.fin q) ∧ to_float v = q)
    ∧ to_float JVal.none_ = 0
    ∧ to_float JVal.nan = 0
    ∧ to_float JVal.inf = 0
    ∧ to_float (JVal.str "not a number") = 0
    ∧ to_float (JVal.str "inf") = 0
    ∧ to_float (JVal.str "-Infinity") = 0
    ∧ to_float (JVal.str "nan") = 0
    ∧ to_float (JVal.str "") = 0
    ∧ (∀ q : ℚ, to_float (JVal.num q) = q) := by
  refine ⟨?_, rfl, rfl, rfl, by decide, by decide, by decide, by decide, by decide, fun q => rfl⟩
  intro v
  cases h : pyCoerce v with
  | none => exact Or.inl (by simp [to_float, h])
  | some pf =>
      cases pf with
      | fin q => exact Or.inr ⟨q, rfl, by simp [to_float, h]⟩
      | nan => exact Or.inl (by simp [to_float, h])
      | inf => exact Or.inl (by simp [to_float, h])

/-- C5: a failed fetch for one query term only increments the warning
count — it adds no row and no seen identifier — and the run continues with
the remaining terms; the final warning count is exactly the number of
failed terms. -/
theorem C5_failed_query_never_fatal :
    (∀ (st : RunState) (msg : String),
        runQuery st (FetchResult.err msg) = ⟨st.seen, st.rows, st.warns + 1⟩)
    ∧ (∀ (st : RunState) (msg : String) (rest : List FetchResult),
        runAll st (FetchResult.err msg :: rest) = runAll ⟨st.seen, st.rows, st.warns + 1⟩ rest)
    ∧ (∀ (st : RunState) (results : List FetchResult),
        (runAll st results).warns = st.warns + results.countP isErr) :=
  ⟨fun st msg => rfl, fun st msg rest => rfl, fun st results => runAll_warns results st⟩

example : map_category ["en:chicken-breast"] = "meat" := by decide
example : map_category ["en:unknown-thing"] = "other" := by decide
example : to_float (JVal.str "bogus") = 0 := by decide
example : to_float JVal.nan = 0 := by rfl
example : first_brand "  ,  Acme, Zed" = "Acme" := by decide
example :
    processProduct [] [] ⟨some "X1", some "Food", some "Acme", some ⟨JVal.num 100, JVal.none_, JVal.none_, JVal.none_⟩, Option.none⟩ =
      (["X1"], [⟨"Food", "Food", "Acme", 100, 0, 0, 0, "other"⟩]) := by decide

/-- Each per-product step either leaves the state unchanged or appends the
normalized row and its barcode together, the barcode being fresh. -/
theorem processProduct_cases (s : List String) (r : List CanonRow) (p : RawProduct) :
    processProduct s r p = (s, r)
    ∨ ∃ rc, normalize p = some rc ∧ rc.2 ∉ s
        ∧ processProduct s r p = (s ++ [rc.2], r ++ [rc.1]) := by
  rw [processProduct_eq]
  cases hn : normalize p with
  | none => exact Or.inl rfl
  | some rc =>
      by_cases hc : rc.2 ∈ s
      · exact Or.inl (by simp [hc])
      · exact Or.inr ⟨rc, rfl, hc, by simp [hc]⟩

/-- Instrumented analogue of `processProduct_cases`. -/
theorem processProductP_cases (s : List String) (prs : List (String × CanonRow)) (p : RawProduct) :
    processProductP s prs p = (s, prs)
    ∨ ∃ rc, normalize p = some rc ∧ rc.2 ∉ s
        ∧ processProductP s prs p = (s ++ [rc.2], prs ++ [(rc.2, rc.1)]) := by
  rw [processProductP_eq]
  cases hn : normalize p with
  | none => exact Or.inl rfl
  | some rc =>
      by_cases hc : rc.2 ∈ s
      · exact Or.inl (by simp [hc])
      · exact Or.inr ⟨rc, rfl, hc, by simp [hc]⟩

/-- The inner loop preserves "rows count = seen size, seen duplicate-free". -/
theorem processProducts_len_nodup :
    ∀ ps (s : List String) (r : List CanonRow),
      (r.length = s.length ∧ s.Nodup) →
      ((processProducts s r ps).2.length = (processProducts s r ps).1.length
        ∧ (processProducts s r ps).1.Nodup) := by
  intro ps s r h
  refine processProducts_ind (fun s r => r.length = s.length ∧ s.Nodup) ?_ ps s r h
  intro s r p hp
  rcases processProduct_cases s r p with heq | ⟨rc, hn, hcnot, heq⟩
  · rw [heq]; exact hp
  · rw [heq]
    constructor
    · simp [hp.1]
    · simpa [List.nodup_append] using ⟨hp.2, hcnot⟩

/-- The whole driver preserves "rows count = seen size, seen
duplicate-free". -/
theorem runAll_len_nodup :
    ∀ (results : List FetchResult) (st : RunState),
      (st.rows.length = st.seen.length ∧ st.seen.Nodup) →
      ((runAll st results).rows.length = (runAll st results).seen.length
        ∧ (runAll st results).seen.Nodup) := by
  intro results st h
  refine runAll_ind (fun st => st.rows.length = st.seen.length ∧ st.seen.Nodup)
    ?_ results st h
  intro st res hp
  cases res with
  | err msg => exact hp
  | ok ps =>
      simp only [runQuery]
      exact processProducts_len_nodup ps st.seen st.rows hp

/-- The instrumented inner loop preserves "output barcodes duplicate-free
and all of them already in the seen set". -/
theorem processProductsP_keys :
    ∀ ps (s : List String) (prs : List (String × CanonRow)),
      ((prs.map Prod.fst).Nodup ∧ ∀ c ∈ prs.map Prod.fst, c ∈ s) →
      (((processProductsP s prs ps).2.map Prod.fst).Nodup
        ∧ ∀ c ∈ (processProductsP s prs ps).2.map Prod.fst, c ∈ (processProductsP s prs ps).1) := by
  intro ps s prs h
  refine processProductsP_ind
    (fun s prs => ((prs.map Prod.fst).Nodup ∧ ∀ c ∈ prs.map Prod.fst, c ∈ s))
    ?_ ps s prs h
  intro s prs p hp
  rcases processProductP_cases s prs p with heq | ⟨rc, hn, hcnot, heq⟩
  · rw [heq]; exact hp
  · rw [heq]
    have hnotin : rc.2 ∉ prs.map Prod.fst := fun hm => hcnot (hp.2 _ hm)
    have hnotin2 : ∀ x : CanonRow, (rc.2, x) ∉ prs := fun x hx =>
      hnotin (by simpa using List.mem_map_of_mem Prod.fst hx)
    constructor
    · simpa [List.nodup_append] using ⟨hp.1, hnotin2⟩
    · intro c hcm
      simp only [List.map_append, List.mem_append, List.map_cons, List.map_nil,
        List.mem_singleton] at hcm
      rcases hcm with hcm | hcm
      · exact List.mem_append_left _ (hp.2 _ hcm)
      · exact List.mem_append_right _ (by simp [hcm])

/-- The instrumented driver preserves the same key invariant. -/
theorem runAllP_keys :
    ∀ (results : List FetchResult) (st : RunStateP),
      ((st.pairs.map Prod.fst).Nodup ∧ ∀ c ∈ st.pairs.map Prod.fst, c ∈ st.seen) →
      (((runAllP st results).pairs.map Prod.fst).Nodup
        ∧ ∀ c ∈ (runAllP st results).pairs.map Prod.fst, c ∈ (runAllP st results).seen) := by
  intro results st h
  refine runAllP_ind
    (fun st => (st.pairs.map Prod.fst).Nodup ∧ ∀ c ∈ st.pairs.map Prod.fst, c ∈ st.seen)
    ?_ results st h
  intro st res hp
  cases res with
  | err msg => exact hp
  | ok ps =>
      simp only [runQueryP]
      exact processProductsP_keys ps st.seen st.pairs hp

/-- The inner loop preserves "every accumulated row has non-empty names". -/
theorem processProducts_names :
    ∀ ps (s : List String) (r : List CanonRow),
      (∀ row ∈ r, row.nameEN ≠ "" ∧ row.nameTR ≠ "") →
      ∀ row ∈ (processProducts s r ps).2, row.nameEN ≠ "" ∧ row.nameTR ≠ "" := by
  intro ps s r h
  refine processProducts_ind
    (fun _ r => ∀ row ∈ r, row.nameEN ≠ "" ∧ row.nameTR ≠ "") ?_ ps s r h
  intro s r p hp
  rcases processProduct_cases s r p with heq | ⟨rc, hn, hcnot, heq⟩
  · rw [heq]; exact hp
  · rw [heq]
    intro row hrow
    simp only [List.mem_append, List.mem_singleton] at hrow
    rcases hrow with hr | hr
    · exact hp row hr
    · obtain ⟨heq2, hne, _⟩ := normalize_accept p rc hn
      rw [hr]
      exact ⟨heq2 ▸ hne, hne⟩

/-- The whole driver preserves "every accumulated row has non-empty
names". -/
theorem runAll_names :
    ∀ (results : List FetchResult) (st : RunState),
      (∀ row ∈ st.rows, row.nameEN ≠ "" ∧ row.nameTR ≠ "") →
      ∀ row ∈ (runAll st results).rows, row.nameEN ≠ "" ∧ row.nameTR ≠ "" := by
  intro results st h
  refine runAll_ind (fun st => ∀ row ∈ st.rows, row.nameEN ≠ "" ∧ row.nameTR ≠ "")
    ?_ results st h
  intro st res hp
  cases res with
  | err msg => exact hp
  | ok ps =>
      simp only [runQuery]
      exact processProducts_names ps st.seen st.rows hp

/-- C1: the output never carries the same barcode twice (keys of the
instrumented output are duplicate-free), rows are only ever appended (so a
first-seen row is never replaced by a later duplicate), every appended row
is the Record Normalizer's output for the record that introduced its
barcode, the instrumented output projects onto the real run's rows, and in
scenario A two terms each returning barcode `X1` with different brands
yield exactly one row carrying the first term's brand. -/
theorem C1_identifier_at_most_once :
    (∀ results : List FetchResult, ((runAllP initStateP results).pairs.map Prod.fst).Nodup)
    ∧ (∀ (st : RunStateP) (results : List FetchResult),
        ∃ suf, (runAllP st results).pairs = st.pairs ++ suf)
    ∧ (∀ (s : List String) (prs : List (String × CanonRow)) (p : RawProduct),
        processProductP s prs p = (s, prs)
        ∨ ∃ rc, normalize p = some rc ∧ rc.2 ∉ s
            ∧ processProductP s prs p = (s ++ [rc.2], prs ++ [(rc.2, rc.1)]))
    ∧ (∀ results : List FetchResult,
        (runAllP initStateP results).pairs.map Prod.snd = (runAll initState results).rows)
    ∧ (runAll initState [FetchResult.ok [recX1A], FetchResult.ok [recX1B]]).rows
        = [⟨"Food", "Food", "BrandA", 100, 0, 0, 0, "other"⟩] := by
  refine ⟨?_, fun st results => runAllP_suffix results st,
    fun s prs p => processProductP_cases s prs p, ?_, by decide⟩
  · intro results
    exact (runAllP_keys results initStateP ⟨List.nodup_nil, by simp [initStateP]⟩).1
  · intro results
    exact (runAllP_proj results [] [] 0).2.1

/-- C6: at the end of every run the number of accumulated rows equals the
size of the seen-identifier set (a duplicate-free list here), because each
per-product step either leaves both untouched or appends exactly one
barcode and one row together. -/
theorem C6_rows_count_eq_seen_size :
    (∀ results : List FetchResult,
        (runAll initState results).rows.length = (runAll initState results).seen.length
        ∧ (runAll initState results).seen.Nodup)
    ∧ (∀ (s : List String) (r : List CanonRow) (p : RawProduct),
        processProduct s r p = (s, r)
        ∨ ∃ rc, normalize p = some rc ∧ rc.2 ∉ s
            ∧ processProduct s r p = (s ++ [rc.2], r ++ [rc.1])) := by
  exact ⟨fun results => runAll_len_nodup results initState ⟨rfl, List.nodup_nil⟩,
    fun s r p => processProduct_cases s r p⟩

/-- C7: every row in the output of any run has a non-empty English and
localized name; a record with no `product_name` at all is rejected even
with all macros populated, and so is a record whose name is whitespace
only. -/
theorem C7_rows_have_nonempty_names :
    (∀ results : List FetchResult,
        ((runAll initState results).rows.all
          fun row => !(row.nameEN == "") && !(row.nameTR == "")) = true)
    ∧ normalize recNoName = Option.none
    ∧ normalize recBlankName = Option.none := by
  refine ⟨?_, by decide, by decide⟩
  intro results
  have main := runAll_names results initState (by simp [initState])
  simp only [List.all_eq_true, Bool.and_eq_true, Bool.not_eq_eq_eq_not, Bool.not_true,
    beq_eq_false_iff_ne, ne_eq]
  intro row hrow
  exact ⟨(main row hrow).1, (main row hrow).2⟩

/-- C8: the Record Normalizer is a total function on arbitrary raw records
(all fields optional): it yields either a rejection signal or a canonical
row together with a non-empty product identifier — it has no other
outcome. -/
theorem C8_normalizer_never_raises :
    ∀ p : RawProduct,
      normalize p = Option.none
      ∨ ∃ rc : CanonRow × String, normalize p = some rc ∧ rc.2 ≠ "" := by
  intro p
  cases h : normalize p with
  | none => exact Or.inl rfl
  | some rc => exact Or.inr ⟨rc, rfl, (normalize_accept p rc h).2.2⟩

/-- C9: the Tabular Writer emits exactly one fixed eight-column header row
(a constant, independent of any locale configuration) followed by one
record per accumulated row in order, and its output does not depend on the
destination's previous content. -/
theorem C9_writer_header_and_rows :
    (∀ (prev : List (List String)) (rows : List CanonRow),
        write_csv prev rows = HEADER_ROW :: rows.map rowToFields)
    ∧ HEADER_ROW = ["nameEN", "nameTR", "brand", "calories", "protein", "carbs", "fat", "category"]
    ∧ (∀ r : CanonRow, (rowToFields r).length = 8)
    ∧ (∀ (prev : List (List String)) (rows : List CanonRow),
        (write_csv prev rows).length = rows.length + 1) := by
  refine ⟨fun prev rows => rfl, rfl, fun r => rfl, fun prev rows => ?_⟩
  simp [write_csv]

/-- C10: a rejected record leaves both the seen set and the accumulated
rows unchanged, and because its identifier was not recorded, a later record
with the same identifier that passes all gates is still accepted and
appended. -/
theorem C10_rejection_leaves_no_trace :
    (∀ (s : List String) (r : List CanonRow) (p : RawProduct),
        normalize p = Option.none → processProduct s r p = (s, r))
    ∧ (∀ (s : List String) (r : List CanonRow) (p q : RawProduct) (rc : CanonRow × String),
        normalize p = Option.none → normalize q = some rc → rc.2 ∉ s →
        processProducts s r [p, q] = (s ++ [rc.2], r ++ [rc.1])) := by
  constructor
  · intro s r p h
    rw [processProduct_eq, h]
    rfl
  · intro s r p q rc hp hq hc
    have h1 : processProduct s r p = (s, r) := by rw [processProduct_eq, hp]; rfl
    have h2 : processProduct s r q = (s ++ [rc.2], r ++ [rc.1]) := by
      rw [processProduct_eq, hq]
      simp [hc]
    simp only [processProducts, h1, h2]

/-- Witness for `C10_rejection_leaves_no_trace`: the all-zero `D1` record is
rejected without blocking the later valid `D1` record. -/
theorem C10_rejection_leaves_no_trace_witness :
    processProducts [] [] [recRej, recAcc] = (["D1"], [rowD]) := by
  have h := C10_rejection_leaves_no_trace.2 [] [] recRej recAcc (rowD, "D1")
    (by decide) (by decide) (by decide)
  simpa using h

end OffExport
